import Mathlib

/-
Shallow embedding of sqlite3transact (src/__init__.py): a sqlite3.Connection
subclass providing nested transaction scopes over a savepoint stack, plus the
`connect` helper's kwargs handling.  The connection state is modelled as the
private transaction stack together with the engine's `in_transaction` flag and
the trace of transaction-control statements executed so far.
-/

/-- Transaction-control statement issued to the SQLite engine by this module. -/
inductive Stmt where
  | beginTransaction : Stmt
  | savepoint : String → Stmt
  | commit : Stmt
  | release : String → Stmt
  | rollback : Stmt
  | rollbackTo : String → Stmt
deriving DecidableEq

/-- Engine-visible effect of a statement on sqlite3's transaction-active flag
(`Connection.in_transaction`), for the statement shapes this module issues:
BEGIN starts a transaction, COMMIT and ROLLBACK end it, SAVEPOINT leaves a
transaction active (starting one if none was), RELEASE and ROLLBACK TO of an
inner savepoint keep the enclosing transaction open. -/
def execStmt (tx : Bool) : Stmt → Bool
  | Stmt.beginTransaction => true
  | Stmt.commit => false
  | Stmt.rollback => false
  | Stmt.savepoint _ => true
  | Stmt.release _ => tx
  | Stmt.rollbackTo _ => tx

/-- State of one SQLite3TransactionalConnection together with its engine:
`transaction_stack` is the private `__transaction_stack` with the head as the
top (`none` is the root frame appended by the outermost enter, `some name` a
savepoint frame), `in_transaction` is the engine's flag, and `trace` records
the statements executed so far, oldest first. -/
structure Conn where
  transaction_stack : List (Option String)
  in_transaction : Bool
  trace : List Stmt
deriving DecidableEq

/-- Errors surfaced by the scope operations: `invariantViolation` models a
failing `assert`, `engineError` a sqlite3 error raised by `execute`. -/
inductive Err where
  | invariantViolation : Err
  | engineError : Err
deriving DecidableEq

/-- Engine-failure oracle that never fails (the happy engine). -/
def noFail : Stmt → Bool := fun _ => false

/-- Model of `self.execute(stmt)`: either the engine fails the statement
(result flag `false`, no state change) or the statement executes, is recorded
in the trace, and updates the engine's transaction flag. -/
def execute (fails : Stmt → Bool) (c : Conn) (s : Stmt) : Conn × Bool :=
  if fails s then (c, false)
  else ({ c with in_transaction := execStmt c.in_transaction s, trace := c.trace ++ [s] }, true)

/-- Model of `SQLite3TransactionalConnection.__enter__` (src/__init__.py lines
19-28).  Mirrors the source: on an empty stack it asserts the engine idle,
executes BEGIN TRANSACTION and appends the root frame `none`; otherwise it
derives the savepoint name from the current stack depth, executes SAVEPOINT
and appends the named frame. -/
def enterScope (fails : Stmt → Bool) (c : Conn) : Conn × Except Err Unit :=
  if c.transaction_stack.length = 0 then
    if c.in_transaction then (c, Except.error Err.invariantViolation)
    else
      match execute fails c Stmt.beginTransaction with
      | (c1, false) => (c1, Except.error Err.engineError)
      | (c1, true) => ({ c1 with transaction_stack := none :: c1.transaction_stack }, Except.ok ())
  else
    let savepoint_name := "savepoint-" ++ Nat.repr c.transaction_stack.length
    match execute fails c (Stmt.savepoint savepoint_name) with
    | (c1, false) => (c1, Except.error Err.engineError)
    | (c1, true) =>
        ({ c1 with transaction_stack := some savepoint_name :: c1.transaction_stack }, Except.ok ())

/-- Model of `SQLite3TransactionalConnection.__exit__` (src/__init__.py lines
30-58).  `exc = none` models a body that completed normally (`__type is
None`), `exc = some e` a body that raised `e`; the exception is never
inspected.  The `Bool` result is the suppression flag `__exit__` returns; an
`Except.error` means `__exit__` itself raised (a failed assert or an engine
error), leaving the state as it was at that point. -/
def exitScope {ε : Type} (fails : Stmt → Bool) (c : Conn) (exc : Option ε) :
    Conn × Except Err Bool :=
  if c.in_transaction = false then (c, Except.error Err.invariantViolation)
  else
    match c.transaction_stack with
    | [] => (c, Except.error Err.invariantViolation)
    | savepoint_name :: _ =>
      match exc, savepoint_name with
      | none, none =>
        match execute fails c Stmt.commit with
        | (c1, false) => (c1, Except.error Err.engineError)
        | (c1, true) =>
          if c1.in_transaction then (c1, Except.error Err.invariantViolation)
          else ({ c1 with transaction_stack := c1.transaction_stack.tail }, Except.ok false)
      | none, some nm =>
        match execute fails c (Stmt.release nm) with
        | (c1, false) => (c1, Except.error Err.engineError)
        | (c1, true) =>
          if c1.in_transaction = false then (c1, Except.error Err.invariantViolation)
          else ({ c1 with transaction_stack := c1.transaction_stack.tail }, Except.ok false)
      | some _, none =>
        match execute fails c Stmt.rollback with
        | (c1, false) => (c1, Except.error Err.engineError)
        | (c1, true) =>
          if c1.in_transaction then (c1, Except.error Err.invariantViolation)
          else ({ c1 with transaction_stack := c1.transaction_stack.tail }, Except.ok false)
      | some _, some nm =>
        match execute fails c (Stmt.rollbackTo nm) with
        | (c1, false) => (c1, Except.error Err.engineError)
        | (c1, true) =>
          if c1.in_transaction = false then (c1, Except.error Err.invariantViolation)
          else ({ c1 with transaction_stack := c1.transaction_stack.tail }, Except.ok false)

/-- Outcome of leaving a `with` block, per Python's context-manager protocol. -/
inductive ScopeOutcome (ε : Type) where
  | raisedInExit : Err → ScopeOutcome ε
  | reraised : ε → ScopeOutcome ε
  | completed : ScopeOutcome ε

/-- Python `with`-statement exit semantics around `exitScope`: if `__exit__`
itself raises, that error propagates; otherwise a body exception is re-raised
exactly when `__exit__` returned a falsy suppression flag. -/
def withExit {ε : Type} (fails : Stmt → Bool) (c : Conn) (exc : Option ε) :
    Conn × ScopeOutcome ε :=
  match exitScope fails c exc with
  | (c1, Except.error e) => (c1, ScopeOutcome.raisedInExit e)
  | (c1, Except.ok suppress) =>
    match exc with
    | none => (c1, ScopeOutcome.completed)
    | some e =>
      if suppress then (c1, ScopeOutcome.completed) else (c1, ScopeOutcome.reraised e)

/-- One scope operation: an enter, or an exit whose body outcome was normal
(`Op.exit false`) or failed (`Op.exit true`). -/
inductive Op where
  | enter : Op
  | exit : Bool → Op
deriving DecidableEq

/-- Run one scope operation in the happy-engine model, propagating errors. -/
def applyOp : Op → Conn → Except Err Conn
  | Op.enter, c =>
    match enterScope noFail c with
    | (c1, Except.ok _) => Except.ok c1
    | (_, Except.error e) => Except.error e
  | Op.exit failed, c =>
    match exitScope noFail c (if failed then some () else (none : Option Unit)) with
    | (c1, Except.ok _) => Except.ok c1
    | (_, Except.error e) => Except.error e

/-- Run a sequence of scope operations, stopping at the first error. -/
def runOps : List Op → Conn → Except Err Conn
  | [], c => Except.ok c
  | op :: rest, c =>
    match applyOp op c with
    | Except.error e => Except.error e
    | Except.ok c1 => runOps rest c1

/-- Initial state: fresh connection, empty stack, engine idle, empty trace. -/
def initConn : Conn := { transaction_stack := [], in_transaction := false, trace := [] }

/-- Frame pushed when entering at stack depth `n`: the root frame at depth 0,
else a savepoint frame named after the depth. -/
def mkFrame (n : Nat) : Option String :=
  if n = 0 then none else some ("savepoint-" ++ Nat.repr n)

/-- The canonical stack at depth `k`: frames for depths `k-1, …, 0`, top first. -/
def spStack : Nat → List (Option String)
  | 0 => []
  | n + 1 => mkFrame n :: spStack n

/-- Well-formed states: the stack is the canonical depth-indexed stack and the
engine's transaction flag matches stack non-emptiness. -/
def WF (c : Conn) : Prop :=
  c.transaction_stack = spStack c.transaction_stack.length ∧
    (c.in_transaction = true ↔ c.transaction_stack ≠ [])

/-- Statement that `__exit__` issues for a given (outcome, top frame) pair. -/
def exitStmt (failed : Bool) (f : Option String) : Stmt :=
  match failed, f with
  | false, none => Stmt.commit
  | false, some nm => Stmt.release nm
  | true, none => Stmt.rollback
  | true, some nm => Stmt.rollbackTo nm

/-- Statement that `__enter__` issues at stack depth `n`. -/
def enterStmt (n : Nat) : Stmt :=
  if n = 0 then Stmt.beginTransaction else Stmt.savepoint ("savepoint-" ++ Nat.repr n)

/-- Recognizer for the enter operation. -/
def isEnter : Op → Bool
  | Op.enter => true
  | Op.exit _ => false

/-- Number of enter operations in a sequence. -/
def countEnter (ops : List Op) : Nat := ops.countP isEnter

/-- Number of exit operations in a sequence. -/
def countExit (ops : List Op) : Nat := ops.countP (fun op => !isEnter op)

/-- Recognizer for COMMIT TRANSACTION statements. -/
def isCommit : Stmt → Bool
  | Stmt.commit => true
  | _ => false

/-- Recognizer for RELEASE SAVEPOINT statements. -/
def isRelease : Stmt → Bool
  | Stmt.release _ => true
  | _ => false

/-- Names of the SAVEPOINT statements in a trace, in issue order. -/
def savepointNames : List Stmt → List String
  | [] => []
  | Stmt.savepoint nm :: rest => nm :: savepointNames rest
  | _ :: rest => savepointNames rest

/-- Balanced sequences of matched enter/exit pairs (Dyck words of scope ops). -/
inductive BalancedOps : List Op → Prop
  | nil : BalancedOps []
  | wrap (b : Bool) {u v : List Op} :
      BalancedOps u → BalancedOps v → BalancedOps (Op.enter :: u ++ Op.exit b :: v)

/-- Python values a keyword argument can be bound to; `isolation_level`
accepts `None` or a string mode. -/
inductive PyVal where
  | pyNone : PyVal
  | pyStr : String → PyVal
deriving DecidableEq

/-- Python dict assignment `d[k] = v`: replace the binding in place or append. -/
def dictSet : List (String × PyVal) → String → PyVal → List (String × PyVal)
  | [], k, v => [(k, v)]
  | (k1, v1) :: rest, k, v =>
    if k1 = k then (k, v) :: rest else (k1, v1) :: dictSet rest k v

/-- Python dict lookup `d.get(k)`. -/
def dictGet : List (String × PyVal) → String → Option PyVal
  | [], _ => none
  | (k1, v1) :: rest, k => if k1 = k then some v1 else dictGet rest k

/-- Model of the kwargs mutation in `__init__` (src/__init__.py lines 14-16):
`kwargs['isolation_level'] = None` executed before delegating to
`sqlite3.Connection.__init__`, which reads `isolation_level` from kwargs. -/
def initKwargs (kwargs : List (String × PyVal)) : List (String × PyVal) :=
  dictSet kwargs "isolation_level" PyVal.pyNone

/-- Decimal digit list of a number, with `[0]` for zero so that it matches the
printer's output shape. -/
def decDigits (n : Nat) : List Nat := if n = 0 then [0] else Nat.digits 10 n

/-- Connection used as concrete input for claim C5: engine in a transaction,
root frame on the stack. -/
def c5conn : Conn := { transaction_stack := [none], in_transaction := true, trace := [] }

/-- Operation sequence exhibiting two sequential sibling scopes at depth 1. -/
def sibOps : List Op := [Op.enter, Op.enter, Op.exit false, Op.enter]

/-- Characterization of a successful `__exit__`: with the engine in a
transaction, a non-empty stack and the engine accepting the issued statement,
the statement and resulting state are a function of (outcome, top frame). -/
lemma exitScope_spec {ε : Type} (fails : Stmt → Bool) (c : Conn) (exc : Option ε)
    (f : Option String) (rest : List (Option String))
    (hst : c.transaction_stack = f :: rest) (htx : c.in_transaction = true)
    (hok : fails (exitStmt exc.isSome f) = false) :
    exitScope fails c exc =
      ({ transaction_stack := rest, in_transaction := f.isSome,
         trace := c.trace ++ [exitStmt exc.isSome f] }, Except.ok false) := by
  cases exc <;> cases f <;>
    simp_all [exitScope, execute, execStmt, exitStmt]

/-- A failing `assert self.in_transaction` at the top of `__exit__`. -/
lemma exitScope_noTx {ε : Type} (fails : Stmt → Bool) (c : Conn) (exc : Option ε)
    (htx : c.in_transaction = false) :
    exitScope fails c exc = (c, Except.error Err.invariantViolation) := by
  simp [exitScope, htx]

/-- A failing `assert len(self.__transaction_stack) > 0` in `__exit__` (or the
transaction assert before it, when the engine is idle as well). -/
lemma exitScope_emptyStack {ε : Type} (fails : Stmt → Bool) (c : Conn) (exc : Option ε)
    (hst : c.transaction_stack = []) :
    exitScope fails c exc = (c, Except.error Err.invariantViolation) := by
  cases h : c.in_transaction <;> simp [exitScope, hst, h]

/-- Characterization of a successful outermost `__enter__`. -/
lemma enterScope_spec_root (fails : Stmt → Bool) (c : Conn)
    (hst : c.transaction_stack = []) (htx : c.in_transaction = false)
    (hok : fails Stmt.beginTransaction = false) :
    enterScope fails c =
      ({ transaction_stack := [none], in_transaction := true,
         trace := c.trace ++ [Stmt.beginTransaction] }, Except.ok ()) := by
  simp [enterScope, execute, execStmt, hst, htx, hok]

/-- Characterization of a successful nested `__enter__`: the savepoint name is
a function of the current stack depth and is carried on the pushed frame. -/
lemma enterScope_spec_sp (fails : Stmt → Bool) (c : Conn)
    (f : Option String) (rest : List (Option String))
    (hst : c.transaction_stack = f :: rest)
    (hok : fails (Stmt.savepoint ("savepoint-" ++ Nat.repr c.transaction_stack.length)) = false) :
    enterScope fails c =
      ({ transaction_stack :=
           some ("savepoint-" ++ Nat.repr c.transaction_stack.length) :: c.transaction_stack,
         in_transaction := true,
         trace := c.trace ++
           [Stmt.savepoint ("savepoint-" ++ Nat.repr c.transaction_stack.length)] },
        Except.ok ()) := by
  simp_all [enterScope, execute, execStmt]

/-- A failing `assert not self.in_transaction` in `__enter__`. -/
lemma enterScope_invariant (fails : Stmt → Bool) (c : Conn)
    (hst : c.transaction_stack = []) (htx : c.in_transaction = true) :
    enterScope fails c = (c, Except.error Err.invariantViolation) := by
  simp [enterScope, hst, htx]

/-- Length of the canonical stack. -/
lemma spStack_length (k : Nat) : (spStack k).length = k := by
  induction k with
  | zero => simp [spStack]
  | succ n ih => simp [spStack, ih]

/-- The canonical stack is non-empty exactly at positive depth. -/
lemma spStack_ne_nil (k : Nat) : spStack k ≠ [] ↔ k ≠ 0 := by
  cases k <;> simp [spStack]

/-- The frame pushed at depth `k` is a savepoint frame exactly for `k ≠ 0`. -/
lemma mkFrame_isSome (k : Nat) : (mkFrame k).isSome = decide (k ≠ 0) := by
  by_cases h : k = 0 <;> simp [mkFrame, h]

/-- The initial state is well-formed. -/
lemma WF_initConn : WF initConn := by
  constructor <;> simp [initConn, spStack]

/-- States holding a canonical stack of positive depth with the flag set are
well-formed. -/
lemma WF_push (k : Nat) (tr : List Stmt) :
    WF { transaction_stack := spStack (k + 1), in_transaction := true, trace := tr } := by
  constructor
  · simp [spStack_length]
  · simp [spStack_ne_nil]

/-- States holding a canonical stack with the flag matching its depth are
well-formed. -/
lemma WF_pop (k : Nat) (tr : List Stmt) :
    WF { transaction_stack := spStack k, in_transaction := (mkFrame k).isSome, trace := tr } := by
  constructor
  · simp [spStack_length]
  · rw [mkFrame_isSome]
    simp [spStack_ne_nil]

/-- In a well-formed state the engine flag is determined by the stack depth. -/
lemma WF_tx_eq (c : Conn) (h : WF c) :
    c.in_transaction = decide (c.transaction_stack.length ≠ 0) := by
  obtain ⟨hsp, hiff⟩ := h
  cases hb : c.in_transaction with
  | false =>
      have hnil : c.transaction_stack = [] := by
        by_contra hne
        rw [hiff.mpr hne] at hb
        simp at hb
      simp [hnil]
  | true =>
      have hne := hiff.mp hb
      have hlen : c.transaction_stack.length ≠ 0 := by
        simpa [List.length_eq_zero] using hne
      simp [hlen]

/-- Entering from a well-formed state always succeeds and pushes the canonical
frame for the current depth. -/
lemma enterScope_WF (c : Conn) (h : WF c) :
    enterScope noFail c =
      ({ transaction_stack := spStack (c.transaction_stack.length + 1),
         in_transaction := true,
         trace := c.trace ++ [enterStmt c.transaction_stack.length] }, Except.ok ()) := by
  obtain ⟨hsp, hiff⟩ := h
  cases hst : c.transaction_stack with
  | nil =>
      have htx : c.in_transaction = false := by
        cases hb : c.in_transaction with
        | false => rfl
        | true => exact ((hiff.mp hb) hst).elim
      rw [enterScope_spec_root noFail c hst htx rfl]
      simp [hst, spStack, mkFrame, enterStmt]
  | cons f rest =>
      rw [← hst]
      have hlen : c.transaction_stack.length ≠ 0 := by
        rw [hst]
        exact Nat.succ_ne_zero _
      have h1 : spStack (c.transaction_stack.length + 1) =
          some ("savepoint-" ++ Nat.repr c.transaction_stack.length) :: c.transaction_stack := by
        have hmk : mkFrame c.transaction_stack.length =
            some ("savepoint-" ++ Nat.repr c.transaction_stack.length) := by
          simp [mkFrame, hlen]
        calc spStack (c.transaction_stack.length + 1)
            = mkFrame c.transaction_stack.length :: spStack c.transaction_stack.length := rfl
          _ = some ("savepoint-" ++ Nat.repr c.transaction_stack.length) ::
                c.transaction_stack := by rw [hmk, ← hsp]
      have h2 : enterStmt c.transaction_stack.length =
          Stmt.savepoint ("savepoint-" ++ Nat.repr c.transaction_stack.length) := by
        simp [enterStmt, hlen]
      rw [enterScope_spec_sp noFail c f rest hst rfl, h1, h2]

/-- Exiting from a well-formed state of positive depth always succeeds, pops
the canonical frame and leaves the canonical stack one shorter. -/
lemma exitScope_WF {ε : Type} (c : Conn) (exc : Option ε) (k : Nat) (h : WF c)
    (hk : c.transaction_stack.length = k + 1) :
    exitScope noFail c exc =
      ({ transaction_stack := spStack k, in_transaction := (mkFrame k).isSome,
         trace := c.trace ++ [exitStmt exc.isSome (mkFrame k)] }, Except.ok false) := by
  obtain ⟨hsp, hiff⟩ := h
  have hst : c.transaction_stack = mkFrame k :: spStack k := by
    rw [hsp, hk]
    rfl
  have htx : c.in_transaction = true := hiff.mpr (by rw [hst]; simp)
  exact exitScope_spec noFail c exc (mkFrame k) (spStack k) hst htx rfl

/-- Effect of one enter operation from a well-formed state. -/
lemma applyOp_enter (c : Conn) (h : WF c) :
    applyOp Op.enter c =
      Except.ok { transaction_stack := spStack (c.transaction_stack.length + 1),
                  in_transaction := true,
                  trace := c.trace ++ [enterStmt c.transaction_stack.length] } := by
  simp [applyOp, enterScope_WF c h]

/-- Effect of one exit operation from a well-formed state of positive depth. -/
lemma applyOp_exit (c : Conn) (b : Bool) (k : Nat) (h : WF c)
    (hk : c.transaction_stack.length = k + 1) :
    applyOp (Op.exit b) c =
      Except.ok { transaction_stack := spStack k, in_transaction := (mkFrame k).isSome,
                  trace := c.trace ++ [exitStmt b (mkFrame k)] } := by
  cases b <;> simp [applyOp, exitScope_WF c _ k ⟨h.1, h.2⟩ hk]

/-- An exit operation on an empty stack fails. -/
lemma applyOp_exit_nil (c : Conn) (b : Bool) (hst : c.transaction_stack = []) :
    applyOp (Op.exit b) c = Except.error Err.invariantViolation := by
  simp [applyOp, exitScope_emptyStack _ c _ hst]

/-- Running a concatenation of operation sequences. -/
lemma runOps_append (u v : List Op) (c : Conn) :
    runOps (u ++ v) c =
      match runOps u c with
      | Except.error e => Except.error e
      | Except.ok c1 => runOps v c1 := by
  induction u generalizing c with
  | nil => simp [runOps]
  | cons op rest ih =>
      simp only [List.cons_append, runOps]
      cases applyOp op c <;> simp [ih]

/-- Any successful run from a well-formed state lands in a well-formed state
whose depth is the initial depth plus the enters minus the exits. -/
lemma runOps_WF_count (ops : List Op) : ∀ c c' : Conn, WF c → runOps ops c = Except.ok c' →
    WF c' ∧ (c'.transaction_stack.length : ℤ) =
      (c.transaction_stack.length : ℤ) + countEnter ops - countExit ops := by
  induction ops with
  | nil =>
      intro c c' h hrun
      rw [runOps] at hrun
      cases hrun
      refine ⟨h, ?_⟩
      simp [countEnter, countExit]
  | cons op rest ih =>
      intro c c' h hrun
      cases op with
      | enter =>
          rw [runOps, applyOp_enter c h] at hrun
          obtain ⟨h1, h2⟩ := ih _ _ (WF_push _ _) hrun
          refine ⟨h1, ?_⟩
          rw [h2]
          simp only [countEnter, countExit, List.countP_cons, isEnter, spStack_length]
          simp
          omega
      | exit b =>
          rcases hk : c.transaction_stack.length with _ | k
          · have hnil : c.transaction_stack = [] := by
              rw [h.1, hk]
              rfl
            rw [runOps, applyOp_exit_nil c b hnil] at hrun
            cases hrun
          · rw [runOps, applyOp_exit c b k h hk] at hrun
            obtain ⟨h1, h2⟩ := ih _ _ (WF_pop _ _) hrun
            refine ⟨h1, ?_⟩
            rw [h2]
            simp only [countEnter, countExit, List.countP_cons, isEnter, spStack_length]
            simp
            omega

/-- Every state reachable by a successful run from the initial state is
well-formed. -/
lemma reachable_WF (ops : List Op) (c' : Conn) (h : runOps ops initConn = Except.ok c') :
    WF c' :=
  (runOps_WF_count ops initConn c' WF_initConn h).1

/-- A balanced sequence run from a well-formed state succeeds and restores the
stack depth and the engine's transaction flag. -/
lemma balanced_run {ops : List Op} (hb : BalancedOps ops) :
    ∀ c : Conn, WF c → ∃ c' : Conn, runOps ops c = Except.ok c' ∧ WF c' ∧
      c'.transaction_stack.length = c.transaction_stack.length ∧
      c'.in_transaction = c.in_transaction := by
  induction hb with
  | nil =>
      intro c h
      exact ⟨c, rfl, h, rfl, rfl⟩
  | @wrap b u v hu hv ihu ihv =>
      intro c h
      obtain ⟨c2, hrun2, hwf2, hlen2, htx2⟩ :=
        ihu { transaction_stack := spStack (c.transaction_stack.length + 1),
              in_transaction := true,
              trace := c.trace ++ [enterStmt c.transaction_stack.length] }
            (WF_push _ _)
      have hk : c2.transaction_stack.length = c.transaction_stack.length + 1 := by
        rw [hlen2]
        simp [spStack_length]
      obtain ⟨c4, hrun4, hwf4, hlen4, htx4⟩ :=
        ihv { transaction_stack := spStack c.transaction_stack.length,
              in_transaction := (mkFrame c.transaction_stack.length).isSome,
              trace := c2.trace ++ [exitStmt b (mkFrame c.transaction_stack.length)] }
            (WF_pop _ _)
      refine ⟨c4, ?_, hwf4, ?_, ?_⟩
      · have e1 : runOps (Op.enter :: u ++ Op.exit b :: v) c =
            runOps (u ++ Op.exit b :: v)
              { transaction_stack := spStack (c.transaction_stack.length + 1),
                in_transaction := true,
                trace := c.trace ++ [enterStmt c.transaction_stack.length] } := by
          simp only [List.cons_append, runOps, applyOp_enter c h]
          rfl
        have e2 : runOps (Op.exit b :: v) c2 =
            runOps v
              { transaction_stack := spStack c.transaction_stack.length,
                in_transaction := (mkFrame c.transaction_stack.length).isSome,
                trace := c2.trace ++ [exitStmt b (mkFrame c.transaction_stack.length)] } := by
          simp only [runOps, applyOp_exit c2 b c.transaction_stack.length hwf2 hk]
        rw [e1, runOps_append, hrun2]
        show runOps (Op.exit b :: v) c2 = Except.ok c4
        rw [e2]
        exact hrun4
      · rw [hlen4]
        simp [spStack_length]
      · rw [htx4, mkFrame_isSome, WF_tx_eq c h]

/-- The statement issued by an enter is never a COMMIT. -/
lemma isCommit_enterStmt (n : Nat) : isCommit (enterStmt n) = false := by
  by_cases h : n = 0 <;> simp [enterStmt, isCommit, h]

/-- The statement issued by an enter is never a RELEASE. -/
lemma isRelease_enterStmt (n : Nat) : isRelease (enterStmt n) = false := by
  by_cases h : n = 0 <;> simp [enterStmt, isRelease, h]

/-- Running `d` consecutive enters from a well-formed state succeeds, deepens
the stack by `d`, and issues no COMMIT and no RELEASE statement. -/
lemma run_enters (d : Nat) : ∀ c : Conn, WF c →
    ∃ c' : Conn, runOps (List.replicate d Op.enter) c = Except.ok c' ∧ WF c' ∧
      c'.transaction_stack.length = c.transaction_stack.length + d ∧
      c'.trace.countP isCommit = c.trace.countP isCommit ∧
      c'.trace.countP isRelease = c.trace.countP isRelease := by
  induction d with
  | zero =>
      intro c h
      exact ⟨c, rfl, h, rfl, rfl, rfl⟩
  | succ n ih =>
      intro c h
      obtain ⟨c', hrun, hwf, hlen, hc, hr⟩ :=
        ih { transaction_stack := spStack (c.transaction_stack.length + 1),
             in_transaction := true,
             trace := c.trace ++ [enterStmt c.transaction_stack.length] }
           (WF_push _ _)
      refine ⟨c', ?_, hwf, ?_, ?_, ?_⟩
      · simp only [List.replicate, runOps, applyOp_enter c h]
        exact hrun
      · rw [hlen]
        simp [spStack_length]
        omega
      · rw [hc]
        simp [List.countP_append, List.countP_cons, isCommit_enterStmt]
      · rw [hr]
        simp [List.countP_append, List.countP_cons, isRelease_enterStmt]

/-- Running `k ≥ 1` normal exits from a well-formed state of depth exactly `k`
succeeds, empties the stack, leaves the engine idle, and issues exactly one
COMMIT and exactly `k - 1` RELEASE statements. -/
lemma run_exits (k : Nat) : ∀ c : Conn, WF c → c.transaction_stack.length = k → 1 ≤ k →
    ∃ c' : Conn, runOps (List.replicate k (Op.exit false)) c = Except.ok c' ∧
      c'.transaction_stack = [] ∧ c'.in_transaction = false ∧
      c'.trace.countP isCommit = c.trace.countP isCommit + 1 ∧
      c'.trace.countP isRelease = c.trace.countP isRelease + (k - 1) := by
  induction k with
  | zero =>
      intro c h hk hge
      exact absurd hge (by omega)
  | succ n ih =>
      intro c h hk hge
      rcases Nat.eq_zero_or_pos n with hn | hn
      · subst hn
        refine ⟨{ transaction_stack := spStack 0, in_transaction := (mkFrame 0).isSome,
                  trace := c.trace ++ [exitStmt false (mkFrame 0)] }, ?_, rfl, rfl, ?_, ?_⟩
        · simp only [List.replicate, runOps, applyOp_exit c false 0 h hk]
        · simp [List.countP_append, List.countP_cons, exitStmt, mkFrame, isCommit]
        · simp [List.countP_append, List.countP_cons, exitStmt, mkFrame, isRelease]
      · have hn0 : n ≠ 0 := by omega
        have hmk : mkFrame n = some ("savepoint-" ++ Nat.repr n) := by
          simp [mkFrame, hn0]
        obtain ⟨c', hrun, hnil, hidle, hc, hr⟩ :=
          ih { transaction_stack := spStack n, in_transaction := (mkFrame n).isSome,
               trace := c.trace ++ [exitStmt false (mkFrame n)] }
             (WF_pop _ _) (spStack_length n) hn
        refine ⟨c', ?_, hnil, hidle, ?_, ?_⟩
        · simp only [List.replicate, runOps, applyOp_exit c false n h hk]
          exact hrun
        · rw [hc]
          simp [List.countP_append, List.countP_cons, exitStmt, hmk, isCommit]
        · rw [hr]
          simp [List.countP_append, List.countP_cons, exitStmt, hmk, isRelease]
          omega

/-- Accumulator form of core's digit printer: the accumulator is appended. -/
lemma toDigitsCore_acc (b : Nat) :
    ∀ (fuel n : Nat) (acc : List Char),
      Nat.toDigitsCore b fuel n acc = Nat.toDigitsCore b fuel n [] ++ acc := by
  intro fuel
  induction fuel with
  | zero =>
      intro n acc
      simp [Nat.toDigitsCore]
  | succ f ih =>
      intro n acc
      simp only [Nat.toDigitsCore]
      by_cases h : n / b = 0
      · simp [h]
      · rw [if_neg h, if_neg h, ih (n / b) (Nat.digitChar (n % b) :: acc),
            ih (n / b) [Nat.digitChar (n % b)]]
        simp

/-- Core's digit printer agrees with `Nat.digits` on positive inputs. -/
lemma toDigitsCore_eq_digits :
    ∀ n : Nat, n ≠ 0 → ∀ fuel : Nat, n < fuel →
      Nat.toDigitsCore 10 fuel n [] = ((Nat.digits 10 n).map Nat.digitChar).reverse := by
  intro n
  induction n using Nat.strong_induction_on with
  | _ n ih =>
      intro hn fuel hfuel
      cases fuel with
      | zero => omega
      | succ f =>
          have hd := Nat.digits_def' (by norm_num : (1 : ℕ) < 10) (Nat.pos_of_ne_zero hn)
          simp only [Nat.toDigitsCore]
          by_cases h : n / 10 = 0
          · rw [if_pos h, hd, h]
            simp
          · have hlt : n / 10 < n := Nat.div_lt_self (Nat.pos_of_ne_zero hn) (by norm_num)
            have hfl : n / 10 < f := by omega
            rw [if_neg h, toDigitsCore_acc, ih (n / 10) hlt h f hfl, hd]
            simp

/-- The digit characters of digits below 10 determine the digits. -/
lemma digitChar_inj_lt10 : ∀ a : Nat, a < 10 → ∀ b : Nat, b < 10 →
    Nat.digitChar a = Nat.digitChar b → a = b := by decide

/-- Mapping `digitChar` over lists of digits below 10 is injective. -/
lemma map_digitChar_inj : ∀ l1 l2 : List Nat, (∀ x ∈ l1, x < 10) → (∀ x ∈ l2, x < 10) →
    l1.map Nat.digitChar = l2.map Nat.digitChar → l1 = l2 := by
  intro l1
  induction l1 with
  | nil =>
      intro l2 _ _ h
      cases l2 with
      | nil => rfl
      | cons b t2 => simp at h
  | cons a t ih =>
      intro l2 h1 h2 h
      cases l2 with
      | nil => simp at h
      | cons b t2 =>
          simp only [List.map_cons, List.cons.injEq] at h
          have ha := digitChar_inj_lt10 a (h1 a (by simp)) b (h2 b (by simp)) h.1
          rw [ha, ih t2 (fun x hx => h1 x (by simp [hx])) (fun x hx => h2 x (by simp [hx])) h.2]

/-- All entries of `decDigits` are digits below 10. -/
lemma decDigits_lt10 (n : Nat) : ∀ x ∈ decDigits n, x < 10 := by
  intro x hx
  by_cases h : n = 0
  · simp [decDigits, h] at hx
    omega
  · simp [decDigits, h] at hx
    exact Nat.digits_lt_base (by norm_num) hx

/-- `decDigits` is injective. -/
lemma decDigits_inj : ∀ m n : Nat, decDigits m = decDigits n → m = n := by
  have key : ∀ n : Nat, n ≠ 0 → [0] ≠ Nat.digits 10 n := by
    intro n hn h
    have h2 := congrArg (Nat.ofDigits 10) h.symm
    rw [Nat.ofDigits_digits, Nat.ofDigits_singleton] at h2
    exact hn (by exact_mod_cast h2)
  intro m n h
  by_cases hm : m = 0 <;> by_cases hn : n = 0
  · rw [hm, hn]
  · rw [decDigits, decDigits, if_pos hm, if_neg hn] at h
    exact absurd h (key n hn)
  · rw [decDigits, decDigits, if_neg hm, if_pos hn] at h
    exact absurd h.symm (key m hm)
  · rw [decDigits, decDigits, if_neg hm, if_neg hn] at h
    have h2 := congrArg (Nat.ofDigits 10) h
    rwa [Nat.ofDigits_digits, Nat.ofDigits_digits] at h2

/-- Printer bridge: `Nat.repr` prints the reversed `decDigits`. -/
lemma repr_eq (n : Nat) :
    Nat.repr n = (((decDigits n).map Nat.digitChar).reverse).asString := by
  by_cases h : n = 0
  · subst h
    rfl
  · unfold Nat.repr Nat.toDigits
    rw [toDigitsCore_eq_digits n h (n + 1) (Nat.lt_succ_self n)]
    rw [decDigits, if_neg h]

/-- `List.asString` is injective. -/
lemma asString_inj (l1 l2 : List Char) (h : l1.asString = l2.asString) : l1 = l2 :=
  congrArg String.data h

/-- `Nat.repr` is injective: distinct numbers print as distinct strings. -/
lemma repr_inj (m n : Nat) (h : Nat.repr m = Nat.repr n) : m = n := by
  rw [repr_eq, repr_eq] at h
  have h1 := asString_inj _ _ h
  have h2 := List.reverse_inj.mp h1
  exact decDigits_inj m n (map_digitChar_inj _ _ (decDigits_lt10 m) (decDigits_lt10 n) h2)

/-- The depth-indexed savepoint names are pairwise distinct across depths. -/
lemma savepoint_name_inj (i j : Nat)
    (h : "savepoint-" ++ Nat.repr i = "savepoint-" ++ Nat.repr j) : i = j := by
  apply repr_inj
  apply String.ext
  have h2 := congrArg String.data h
  rw [String.data_append, String.data_append] at h2
  exact List.append_cancel_left h2

/-- Frames occurring in the canonical stack. -/
lemma mem_spStack : ∀ (k : Nat) (f : Option String), f ∈ spStack k →
    f = none ∨ ∃ i, i ≠ 0 ∧ i < k ∧ f = some ("savepoint-" ++ Nat.repr i) := by
  intro k
  induction k with
  | zero =>
      intro f hf
      simp [spStack] at hf
  | succ n ih =>
      intro f hf
      rw [spStack] at hf
      rcases List.mem_cons.mp hf with h | h
      · by_cases hn : n = 0
        · left
          simp [h, mkFrame, hn]
        · right
          exact ⟨n, hn, Nat.lt_succ_self n, by simp [h, mkFrame, hn]⟩
      · rcases ih f h with h1 | ⟨i, hi0, hik, hfi⟩
        · left
          exact h1
        · right
          exact ⟨i, hi0, Nat.lt_succ_of_lt hik, hfi⟩

/-- The canonical stack holds no duplicate frames: every open savepoint name is
unique on the stack, and there is at most one root frame. -/
lemma spStack_nodup (k : Nat) : (spStack k).Nodup := by
  induction k with
  | zero => simp [spStack]
  | succ n ih =>
      rw [spStack]
      refine List.nodup_cons.mpr ⟨?_, ih⟩
      intro hmem
      rcases mem_spStack n (mkFrame n) hmem with h | ⟨i, hi0, hik, hfi⟩
      · have hn : n = 0 := by
          by_contra hn0
          simp [mkFrame, hn0] at h
        rw [hn] at hmem
        simp [spStack] at hmem
      · have hn0 : n ≠ 0 := by
          by_contra hn
          rw [hn] at hmem
          simp [spStack] at hmem
        have hmk : mkFrame n = some ("savepoint-" ++ Nat.repr n) := by
          simp [mkFrame, hn0]
        rw [hmk] at hfi
        have hname := savepoint_name_inj n i (Option.some.inj hfi)
        omega

/-- The savepoint names on the canonical stack are pairwise distinct. -/
lemma spStack_names_nodup (k : Nat) : ((spStack k).filterMap id).Nodup := by
  refine (spStack_nodup k).filterMap ?_
  intro a a' b h1 h2
  simp only [id, Option.mem_def] at h1 h2
  rw [h1, h2]

/-- Whenever `__exit__` returns at all, the value it returns is `False`. -/
lemma exitScope_ok_false {ε : Type} (fails : Stmt → Bool) (c : Conn) (exc : Option ε)
    (c1 : Conn) (b : Bool) (h : exitScope fails c exc = (c1, Except.ok b)) : b = false := by
  unfold exitScope at h
  repeat' split at h
  all_goals simp_all

/-- Keeping track of the lookup key through a Python dict assignment. -/
lemma dictGet_dictSet (d : List (String × PyVal)) (k : String) (v : PyVal) :
    dictGet (dictSet d k v) k = some v := by
  induction d with
  | nil => simp [dictSet, dictGet]
  | cons kv rest ih =>
      obtain ⟨k1, v1⟩ := kv
      by_cases h : k1 = k
      · simp [dictSet, dictGet, h]
      · simp [dictSet, dictGet, h, ih]

/-- C1: for every exit-scope call with a non-empty frame stack (under the
operation's precondition that the engine reports an active transaction), the
statement issued and the resulting engine state are determined exactly by
(outcome, top-frame kind) — normal+Root commits and leaves no active
transaction, normal+Savepoint n releases savepoint n and leaves a transaction
active, failed+Root rolls back and leaves no active transaction,
failed+Savepoint n rolls back to savepoint n and leaves a transaction active —
and in every case the top frame is popped, so the depth drops by exactly 1. -/
theorem C1_exit_table {ε : Type} (c : Conn) (exc : Option ε) (f : Option String)
    (rest : List (Option String))
    (hst : c.transaction_stack = f :: rest) (htx : c.in_transaction = true) :
    (exc = none → f = none →
      exitScope noFail c exc =
        ({ transaction_stack := rest, in_transaction := false,
           trace := c.trace ++ [Stmt.commit] }, Except.ok false)) ∧
    (∀ nm, exc = none → f = some nm →
      exitScope noFail c exc =
        ({ transaction_stack := rest, in_transaction := true,
           trace := c.trace ++ [Stmt.release nm] }, Except.ok false)) ∧
    (∀ e : ε, exc = some e → f = none →
      exitScope noFail c exc =
        ({ transaction_stack := rest, in_transaction := false,
           trace := c.trace ++ [Stmt.rollback] }, Except.ok false)) ∧
    (∀ (e : ε) (nm : String), exc = some e → f = some nm →
      exitScope noFail c exc =
        ({ transaction_stack := rest, in_transaction := true,
           trace := c.trace ++ [Stmt.rollbackTo nm] }, Except.ok false)) ∧
    (exitScope noFail c exc).1.transaction_stack = rest ∧
    (exitScope noFail c exc).1.transaction_stack.length + 1 = c.transaction_stack.length := by
  refine ⟨?_, ?_, ?_, ?_, ?_, ?_⟩
  · rintro rfl rfl
    exact exitScope_spec noFail c none none rest hst htx rfl
  · rintro nm rfl rfl
    exact exitScope_spec noFail c none (some nm) rest hst htx rfl
  · rintro e rfl rfl
    exact exitScope_spec noFail c (some e) none rest hst htx rfl
  · rintro e nm rfl rfl
    exact exitScope_spec noFail c (some e) (some nm) rest hst htx rfl
  · rw [exitScope_spec noFail c exc f rest hst htx rfl]
  · rw [exitScope_spec noFail c exc f rest hst htx rfl, hst]
    simp

/-- Witness for C1 at a concrete input: normal exit of a savepoint frame. -/
theorem C1_exit_table_witness :
    exitScope noFail
        { transaction_stack := [some "savepoint-1", none], in_transaction := true, trace := [] }
        (none : Option Unit) =
      ({ transaction_stack := [none], in_transaction := true,
         trace := [Stmt.release "savepoint-1"] }, Except.ok false) := by
  have h := @C1_exit_table Unit
      { transaction_stack := [some "savepoint-1", none], in_transaction := true, trace := [] }
      none (some "savepoint-1") [none] rfl rfl
  simpa using h.2.1 "savepoint-1" rfl rfl

/-- C2: for every enter-scope call (under the operation's precondition that an
empty stack implies an idle engine): on an empty stack it issues BEGIN
TRANSACTION and pushes a Root frame, otherwise it derives the savepoint name
deterministically from the current stack depth, issues SAVEPOINT with that
name and pushes a Savepoint frame carrying it; in both cases the engine
reports an active transaction afterward and the depth grows by exactly 1. -/
theorem C2_enter_spec (c : Conn)
    (hpre : c.transaction_stack = [] → c.in_transaction = false) :
    (c.transaction_stack = [] →
      enterScope noFail c =
        ({ transaction_stack := none :: c.transaction_stack, in_transaction := true,
           trace := c.trace ++ [Stmt.beginTransaction] }, Except.ok ())) ∧
    (c.transaction_stack ≠ [] →
      enterScope noFail c =
        ({ transaction_stack :=
             some ("savepoint-" ++ Nat.repr c.transaction_stack.length) :: c.transaction_stack,
           in_transaction := true,
           trace := c.trace ++
             [Stmt.savepoint ("savepoint-" ++ Nat.repr c.transaction_stack.length)] },
          Except.ok ())) ∧
    (enterScope noFail c).1.in_transaction = true ∧
    (enterScope noFail c).1.transaction_stack.length = c.transaction_stack.length + 1 := by
  refine ⟨?_, ?_, ?_⟩
  · intro hst
    rw [enterScope_spec_root noFail c hst (hpre hst) rfl, hst]
  · intro hne
    obtain ⟨f, rest, hst⟩ := List.exists_cons_of_ne_nil hne
    exact enterScope_spec_sp noFail c f rest hst rfl
  · rcases hc : c.transaction_stack with _ | ⟨f, rest⟩
    · rw [enterScope_spec_root noFail c hc (hpre hc) rfl]
      exact ⟨rfl, by simp [hc]⟩
    · rw [enterScope_spec_sp noFail c f rest hc rfl]
      exact ⟨rfl, by simp [hc]⟩

/-- Witness for C2 at a concrete input: first enter on a fresh connection. -/
theorem C2_enter_spec_witness :
    enterScope noFail initConn =
      ({ transaction_stack := [none], in_transaction := true,
         trace := [Stmt.beginTransaction] }, Except.ok ()) := by
  have h := C2_enter_spec initConn (fun _ => rfl)
  simpa [initConn] using h.1 rfl

/-- C3: in every state reachable from the initial state by a sequence of
successful enter/exit operations, the frame stack is non-empty iff the engine
reports an active transaction, and the stack depth equals the number of
currently-open scopes (enters minus exits). -/
theorem C3_stack_engine_invariant (ops : List Op) (c' : Conn)
    (h : runOps ops initConn = Except.ok c') :
    (c'.transaction_stack ≠ [] ↔ c'.in_transaction = true) ∧
    (c'.transaction_stack.length : ℤ) = (countEnter ops : ℤ) - countExit ops := by
  obtain ⟨hwf, hcount⟩ := runOps_WF_count ops initConn c' WF_initConn h
  refine ⟨hwf.2.symm, ?_⟩
  rw [hcount]
  simp [initConn]

/-- Witness for C3 at a concrete input: one full enter/exit round trip. -/
theorem C3_stack_engine_invariant_witness :
    (({ transaction_stack := [], in_transaction := false,
        trace := [Stmt.beginTransaction, Stmt.commit] } : Conn).transaction_stack ≠ [] ↔
      ({ transaction_stack := [], in_transaction := false,
         trace := [Stmt.beginTransaction, Stmt.commit] } : Conn).in_transaction = true) ∧
    ((({ transaction_stack := [], in_transaction := false,
         trace := [Stmt.beginTransaction, Stmt.commit] } : Conn).transaction_stack.length : ℤ) =
      (countEnter [Op.enter, Op.exit false] : ℤ) - countExit [Op.enter, Op.exit false]) :=
  C3_stack_engine_invariant [Op.enter, Op.exit false]
    { transaction_stack := [], in_transaction := false,
      trace := [Stmt.beginTransaction, Stmt.commit] } rfl

/-- C4: a failed exit re-propagates the triggering failure unchanged to the
caller once the rollback statement has executed — `__exit__` returns the
non-suppressing value `False` in every branch and never inspects the body's
failure — and a normal exit completes without raising anything of its own. -/
theorem C4_error_propagation {ε : Type} (c : Conn) (e : ε) (f : Option String)
    (rest : List (Option String))
    (hst : c.transaction_stack = f :: rest) (htx : c.in_transaction = true) :
    (∀ (fails : Stmt → Bool) (c0 : Conn) (exc : Option ε) (c1 : Conn) (b : Bool),
        exitScope fails c0 exc = (c1, Except.ok b) → b = false) ∧
    (withExit noFail c (some e)).2 = ScopeOutcome.reraised e ∧
    (withExit noFail c (some e)).1.trace = c.trace ++ [exitStmt true f] ∧
    (withExit noFail c (none : Option ε)).2 = ScopeOutcome.completed := by
  refine ⟨fun fails c0 exc c1 b hb => exitScope_ok_false fails c0 exc c1 b hb, ?_, ?_, ?_⟩
  · rw [withExit, exitScope_spec noFail c (some e) f rest hst htx rfl]
    rfl
  · rw [withExit, exitScope_spec noFail c (some e) f rest hst htx rfl]
    rfl
  · rw [withExit, exitScope_spec noFail c (none : Option ε) f rest hst htx rfl]


/-- Witness for C4 at a concrete input: failed exit of a root frame. -/
theorem C4_error_propagation_witness :
    (withExit noFail c5conn (some 7)).2 = ScopeOutcome.reraised 7 ∧
    (withExit noFail c5conn (some 7)).1.trace = [Stmt.rollback] := by
  have h := C4_error_propagation c5conn 7 none [] rfl rfl
  exact ⟨h.2.1, by simpa [c5conn] using h.2.2.1⟩

/-- C5 counterexample: the claim says that when the engine fails the COMMIT of
a normal Root exit the frame is nonetheless popped; in the code the pop sits
after `self.execute("COMMIT TRANSACTION")`, so the raised engine error skips
it — at this concrete input the stack is unchanged, still holding the root
frame, while the engine error propagates. -/
theorem C5_counterexample :
    exitScope isCommit c5conn (none : Option Unit) = (c5conn, Except.error Err.engineError) ∧
    (exitScope isCommit c5conn (none : Option Unit)).1.transaction_stack = [none] ∧
    ¬ (exitScope isCommit c5conn (none : Option Unit)).1.transaction_stack.length = 0 := by
  refine ⟨rfl, rfl, by decide⟩

/-- C5 (amended): if the engine raises an EngineError while executing the
COMMIT of a normal Root-frame exit, the error propagates unchanged to the
caller and the frame is NOT popped — the connection state, stack included, is
left exactly as it was. -/
theorem C5_commit_failure_no_pop {ε : Type} (fails : Stmt → Bool) (c : Conn)
    (rest : List (Option String)) (hst : c.transaction_stack = none :: rest)
    (htx : c.in_transaction = true) (hf : fails Stmt.commit = true) :
    exitScope fails c (none : Option ε) = (c, Except.error Err.engineError) := by
  simp [exitScope, htx, hst, execute, hf]

/-- Witness for the amended C5 at a concrete input. -/
theorem C5_commit_failure_no_pop_witness :
    exitScope isCommit c5conn (none : Option Unit) = (c5conn, Except.error Err.engineError) :=
  @C5_commit_failure_no_pop Unit isCommit c5conn [] rfl rfl rfl

/-- C6 counterexample: the claim quantifies over every depth d ≥ 0, but at
d = 0 the empty operation sequence issues no statement at all, so the trace
holds zero COMMIT statements, not exactly one. -/
theorem C6_counterexample_zero_depth :
    runOps (List.replicate 0 Op.enter ++ List.replicate 0 (Op.exit false)) initConn =
      Except.ok initConn ∧
    ¬ initConn.trace.countP isCommit = 1 :=
  ⟨rfl, by decide⟩

/-- C6 (amended): for every nesting depth d ≥ 1, entering d scopes and then
exiting all d scopes normally issues exactly one COMMIT TRANSACTION and
exactly d - 1 RELEASE SAVEPOINT statements, and the engine reports no active
transaction afterward (at d = 0 nothing is issued at all). -/
theorem C6_nested_commit_release (d : Nat) (hd : 1 ≤ d) :
    ∃ c' : Conn,
      runOps (List.replicate d Op.enter ++ List.replicate d (Op.exit false)) initConn =
        Except.ok c' ∧
      c'.trace.countP isCommit = 1 ∧
      c'.trace.countP isRelease = d - 1 ∧
      c'.in_transaction = false := by
  obtain ⟨c1, hrun1, hwf1, hlen1, hc1, hr1⟩ := run_enters d initConn WF_initConn
  have hlen : c1.transaction_stack.length = d := by simpa [initConn] using hlen1
  obtain ⟨c2, hrun2, hnil, hidle, hc2, hr2⟩ := run_exits d c1 hwf1 hlen hd
  refine ⟨c2, ?_, ?_, ?_, hidle⟩
  · rw [runOps_append, hrun1]
    exact hrun2
  · rw [hc2, hc1]
    simp [initConn]
  · rw [hr2, hr1]
    simp [initConn]

/-- Witness for the amended C6 at depth 2. -/
theorem C6_nested_commit_release_witness :
    1 ≤ 2 ∧
    ∃ c' : Conn,
      runOps (List.replicate 2 Op.enter ++ List.replicate 2 (Op.exit false)) initConn =
        Except.ok c' ∧
      c'.trace.countP isCommit = 1 ∧
      c'.trace.countP isRelease = 2 - 1 ∧
      c'.in_transaction = false :=
  ⟨by decide, C6_nested_commit_release 2 (by decide)⟩

/-- C7 counterexample: two sibling scopes entered sequentially at depth 1 (the
second and fourth operations of `sibOps`) both receive the savepoint name
"savepoint-1" — the generated names are equal, not distinct identifiers. -/
theorem C7_counterexample_sibling_reuse :
    runOps sibOps initConn =
      Except.ok { transaction_stack := [some "savepoint-1", none], in_transaction := true,
                  trace := [Stmt.beginTransaction, Stmt.savepoint "savepoint-1",
                            Stmt.release "savepoint-1", Stmt.savepoint "savepoint-1"] } ∧
    savepointNames [Stmt.beginTransaction, Stmt.savepoint "savepoint-1",
                    Stmt.release "savepoint-1", Stmt.savepoint "savepoint-1"] =
      ["savepoint-1", "savepoint-1"] ∧
    ¬ (["savepoint-1", "savepoint-1"] : List String).Nodup :=
  ⟨rfl, rfl, by decide⟩

/-- C7 (amended): sibling scopes entered sequentially at the same depth reuse
the same depth-derived savepoint name, so the generated names are not distinct
across time; distinctness holds among simultaneously open frames: in every
reachable state the stack is the canonical depth-indexed stack and the names
of the open savepoint frames are pairwise distinct. -/
theorem C7_open_names_distinct (ops : List Op) (c' : Conn)
    (h : runOps ops initConn = Except.ok c') :
    c'.transaction_stack = spStack c'.transaction_stack.length ∧
    (c'.transaction_stack.filterMap id).Nodup := by
  have hwf := reachable_WF ops c' h
  refine ⟨hwf.1, ?_⟩
  rw [hwf.1]
  exact spStack_names_nodup _

/-- Witness for the amended C7 after the sibling-reuse scenario. -/
theorem C7_open_names_distinct_witness :
    ({ transaction_stack := [some "savepoint-1", none], in_transaction := true,
       trace := [Stmt.beginTransaction, Stmt.savepoint "savepoint-1",
                 Stmt.release "savepoint-1", Stmt.savepoint "savepoint-1"] } :
        Conn).transaction_stack =
      spStack ({ transaction_stack := [some "savepoint-1", none], in_transaction := true,
                 trace := [Stmt.beginTransaction, Stmt.savepoint "savepoint-1",
                           Stmt.release "savepoint-1", Stmt.savepoint "savepoint-1"] } :
          Conn).transaction_stack.length ∧
    (({ transaction_stack := [some "savepoint-1", none], in_transaction := true,
        trace := [Stmt.beginTransaction, Stmt.savepoint "savepoint-1",
                  Stmt.release "savepoint-1", Stmt.savepoint "savepoint-1"] } :
        Conn).transaction_stack.filterMap id).Nodup :=
  C7_open_names_distinct sibOps
    { transaction_stack := [some "savepoint-1", none], in_transaction := true,
      trace := [Stmt.beginTransaction, Stmt.savepoint "savepoint-1",
                Stmt.release "savepoint-1", Stmt.savepoint "savepoint-1"] } rfl

/-- C8: calling exit-scope while the engine reports no active transaction, or
while the frame stack is empty, fails with InvariantViolation (the state is
untouched — no silent no-op), and enter-scope on an empty stack with the
engine already in a transaction fails with the same InvariantViolation. -/
theorem C8_invariant_checks {ε : Type} :
    (∀ (fails : Stmt → Bool) (c : Conn) (exc : Option ε), c.in_transaction = false →
        exitScope fails c exc = (c, Except.error Err.invariantViolation)) ∧
    (∀ (fails : Stmt → Bool) (c : Conn) (exc : Option ε), c.transaction_stack = [] →
        exitScope fails c exc = (c, Except.error Err.invariantViolation)) ∧
    (∀ (fails : Stmt → Bool) (c : Conn), c.transaction_stack = [] → c.in_transaction = true →
        enterScope fails c = (c, Except.error Err.invariantViolation)) :=
  ⟨exitScope_noTx, exitScope_emptyStack, enterScope_invariant⟩

/-- Witness for C8 at concrete inputs: exit on a fresh connection and enter on
an empty stack with a spuriously active engine. -/
theorem C8_invariant_checks_witness :
    exitScope noFail initConn (none : Option Unit) =
      (initConn, Except.error Err.invariantViolation) ∧
    enterScope noFail { transaction_stack := [], in_transaction := true, trace := [] } =
      ({ transaction_stack := [], in_transaction := true, trace := [] },
        Except.error Err.invariantViolation) :=
  ⟨(@C8_invariant_checks Unit).1 noFail initConn none rfl,
    (@C8_invariant_checks Unit).2.2 noFail
      { transaction_stack := [], in_transaction := true, trace := [] } rfl rfl⟩

/-- C9: for every balanced sequence of matched enter/exit pairs (any nesting,
any mix of normal and failed outcomes) run successfully from a reachable
state, the connection's active-transaction flag afterwards equals its value
before the first enter. -/
theorem C9_balanced_round_trip (pre ops : List Op) (c c' : Conn)
    (hpre : runOps pre initConn = Except.ok c) (hb : BalancedOps ops)
    (hrun : runOps ops c = Except.ok c') :
    c'.in_transaction = c.in_transaction := by
  have hwf := reachable_WF pre c hpre
  obtain ⟨c2, hrun2, _, _, htx⟩ := balanced_run hb c hwf
  rw [hrun] at hrun2
  injection hrun2 with h2
  rw [← h2] at htx
  exact htx

/-- Witness for C9: a balanced enter/exit-failed pair run after one enter. -/
theorem C9_balanced_round_trip_witness :
    ({ transaction_stack := [none], in_transaction := true,
       trace := [Stmt.beginTransaction, Stmt.savepoint "savepoint-1",
                 Stmt.rollbackTo "savepoint-1"] } : Conn).in_transaction =
      ({ transaction_stack := [none], in_transaction := true,
         trace := [Stmt.beginTransaction] } : Conn).in_transaction :=
  C9_balanced_round_trip [Op.enter] [Op.enter, Op.exit true]
    { transaction_stack := [none], in_transaction := true,
      trace := [Stmt.beginTransaction] }
    { transaction_stack := [none], in_transaction := true,
      trace := [Stmt.beginTransaction, Stmt.savepoint "savepoint-1",
                Stmt.rollbackTo "savepoint-1"] }
    rfl (BalancedOps.wrap true BalancedOps.nil BalancedOps.nil) rfl

/-- C10: for every keyword-argument list passed to the constructor, the
constructor forces `isolation_level` to None — silently overwriting any value
the caller supplied — so the connection is created with manual transaction
control. -/
theorem C10_isolation_level_forced (kwargs : List (String × PyVal)) :
    dictGet (initKwargs kwargs) "isolation_level" = some PyVal.pyNone :=
  dictGet_dictSet kwargs "isolation_level" PyVal.pyNone

